import Mathlib

/-!
Verification of the request scheduler of react-imperative-prompt.

The scheduling core lives in src/inputManager.ts: a FIFO queue of pending
interactive prompts, a single active slot (currentPrompt), a cancellation
bridge for abort signals and timeouts, a display-channel streaming mechanism,
and an event bus.  The embedding below is a state machine whose operations
mirror the methods of the InputManager class; side effects of the resolve
continuations are recorded in a settlement log, console diagnostics are
counted, and registered timers and abort listeners are tracked in lists so
that cleanup behaviour is observable.
-/

namespace ImperativePrompt

/-- Cancellation reasons, from the union type of cancelPrompt in inputManager.ts. -/
inductive Reason where
  | abort
  | timeout
  | missingRenderer
  | manual
  deriving Repr, DecidableEq

/-- Lifecycle events, from the InputEvents union in types.ts (prompt events only;
display events are modelled separately with the display channel). -/
inductive Event where
  | shown (id : Nat) (kind : Option String)
  | resolved (id : Nat)
  | canceled (id : Nat) (reason : Reason)
  deriving Repr, DecidableEq

/-- Missing-renderer policies, from MissingRendererPolicy in types.ts. -/
inductive Policy where
  | resolveNull
  | reject
  | throw
  deriving Repr, DecidableEq

/-- A submitted interactive request, from InputPrompt in types.ts.  The resolve
continuation is not stored in the record: every invocation of a continuation is
appended to the settlement log of the state, keyed by the request id.  The
abortSignal option is abstracted to whether one was supplied. -/
structure Prompt (V : Type) where
  id : Nat
  kind : Option String := none
  hasAbortSignal : Bool := false
  timeoutMs : Option Nat := none
  priority : Option Nat := none
  deriving Repr, DecidableEq

/-- The state of an InputManager instance.  queue and currentPrompt are the
fields of the class; settled records each continuation invocation (id, value),
with none as the null sentinel; activeListeners and activeTimers hold the ids
whose abort listener respectively timeout timer is currently registered;
events is the emitted event log; notifications counts notify() calls;
warnCount and errorCount count console.warn and console.error diagnostics. -/
structure MState (V : Type) where
  queue : List (Prompt V) := []
  currentPrompt : Option (Prompt V) := none
  nextId : Nat := 0
  settled : List (Nat × Option V) := []
  activeListeners : List Nat := []
  activeTimers : List Nat := []
  events : List Event := []
  notifications : Nat := 0
  warnCount : Nat := 0
  errorCount : Nat := 0
  deriving Repr, DecidableEq

variable {V : Type}

/-- notify() : fan out the state-changed signal to subscribers. -/
def notify (s : MState V) : MState V :=
  { s with notifications := s.notifications + 1 }

/-- emit(evt) : fan out a lifecycle event. -/
def emit (e : Event) (s : MState V) : MState V :=
  { s with events := s.events ++ [e] }

/-- The wrapped resolve installed by input(): invokes the original resolve and
then unconditionally runs the cleanup list, which unregisters the abort
listener and clears the timer of this prompt. -/
def settleWrapped (p : Prompt V) (v : Option V) (s : MState V) : MState V :=
  { s with
    settled := s.settled ++ [(p.id, v)]
    activeListeners := s.activeListeners.filter (fun i => i ≠ p.id)
    activeTimers := s.activeTimers.filter (fun i => i ≠ p.id) }

/-- The raw promise resolve, as invoked through the directResolve argument of
cancelPrompt: settles the promise without running the cleanup list. -/
def settleRaw (p : Prompt V) (v : Option V) (s : MState V) : MState V :=
  { s with settled := s.settled ++ [(p.id, v)] }

/-- processQueue() : if no prompt is current and the queue is non-empty, shift
the queue head into the current slot, emit prompt:shown, and notify. -/
def processQueue (s : MState V) : MState V :=
  match s.currentPrompt, s.queue with
  | none, p :: rest =>
      notify (emit (.shown p.id p.kind) { s with currentPrompt := some p, queue := rest })
  | _, _ => s

/-- queue.findIndex plus the found element: the first prompt with the given id. -/
def findById (id : Nat) : List (Prompt V) → Option (Prompt V)
  | [] => none
  | p :: rest => if p.id = id then some p else findById id rest

/-- queue.splice(idx, 1) at the index found by findIndex: removes the first
prompt with the given id, keeping every other element in place. -/
def removeFirstById (id : Nat) : List (Prompt V) → List (Prompt V)
  | [] => []
  | p :: rest => if p.id = id then rest else p :: removeFirstById id rest

/-- The queue branch of cancelPrompt: if a prompt with this id is still in the
queue, splice it out, invoke directResolve if one was passed (the raw resolve,
skipping cleanup) and otherwise the wrapped prompt resolve, emit
prompt:canceled, and notify; processQueue is not run.  Unknown ids are
ignored. -/
def cancelQueued (id : Nat) (reason : Reason) (direct : Bool) (s : MState V) : MState V :=
  match findById id s.queue with
  | some p =>
      let s1 := { s with queue := removeFirstById id s.queue }
      let s2 := if direct then settleRaw p none s1 else settleWrapped p none s1
      notify (emit (.canceled id reason) s2)
  | none => s

/-- cancelPrompt(id, reason, directResolve?) : if the current prompt has this
id, clear the slot, invoke its wrapped resolve with null, emit prompt:canceled,
notify and processQueue; otherwise fall through to the queue branch. -/
def cancelPrompt (id : Nat) (reason : Reason) (direct : Bool) (s : MState V) : MState V :=
  match s.currentPrompt with
  | some p =>
      if p.id = id then
        processQueue (notify (emit (.canceled id reason)
          (settleWrapped p none { s with currentPrompt := none })))
      else cancelQueued id reason direct s
  | none => cancelQueued id reason direct s

/-- resolvePrompt(id, value) : a no-op without a current prompt; a console.warn
diagnostic when the id does not match the current prompt; on match, clear the
slot, invoke the wrapped resolve with the value, emit prompt:resolved, notify
and processQueue. -/
def resolvePrompt (id : Nat) (v : V) (s : MState V) : MState V :=
  match s.currentPrompt with
  | none => s
  | some p =>
      if p.id = id then
        processQueue (notify (emit (.resolved id)
          (settleWrapped p (some v) { s with currentPrompt := none })))
      else { s with warnCount := s.warnCount + 1 }

/-- The guard of the setTimeout registration in input():
typeof timeoutMs === number and timeoutMs > 0. -/
def timerEnabled : Option Nat → Bool
  | some n => decide (0 < n)
  | none => false

/-- input(options) : allocate the next id, register the abort listener and the
timeout timer before enqueueing, push the prompt onto the queue, processQueue,
then notify. -/
def input (kind : Option String) (hasAbort : Bool) (timeoutMs : Option Nat)
    (priority : Option Nat) (s : MState V) : MState V :=
  let id := s.nextId
  let p : Prompt V :=
    { id := id, kind := kind, hasAbortSignal := hasAbort
      timeoutMs := timeoutMs, priority := priority }
  let s1 := { s with
    nextId := id + 1
    activeListeners := if hasAbort then s.activeListeners ++ [id] else s.activeListeners
    activeTimers := if timerEnabled timeoutMs then s.activeTimers ++ [id] else s.activeTimers }
  let s2 := { s1 with queue := s1.queue ++ [p] }
  notify (processQueue s2)

/-- The abort signal firing: the once-registered listener is removed by the
once flag and runs cancelPrompt(id, abort, resolve) with the raw resolve as
directResolve.  Nothing happens if the listener is no longer registered. -/
def abortFire (id : Nat) (s : MState V) : MState V :=
  if id ∈ s.activeListeners then
    cancelPrompt id .abort true
      { s with activeListeners := s.activeListeners.filter (fun i => i ≠ id) }
  else s

/-- The timeout timer firing: the one-shot timer is spent and runs
cancelPrompt(id, timeout, resolve) with the raw resolve as directResolve.
Nothing happens if the timer is no longer registered. -/
def timerFire (id : Nat) (s : MState V) : MState V :=
  if id ∈ s.activeTimers then
    cancelPrompt id .timeout true
      { s with activeTimers := s.activeTimers.filter (fun i => i ≠ id) }
  else s

/-- handleMissingRenderer() : a no-op without a current prompt; under the throw
policy a console.error diagnostic is surfaced first; every policy then cancels
the current prompt with reason missing-renderer.  A missing policy defaults to
resolve-null. -/
def handleMissingRenderer (policy : Option Policy) (s : MState V) : MState V :=
  match s.currentPrompt with
  | none => s
  | some p =>
      match policy.getD .resolveNull with
      | .throw => cancelPrompt p.id .missingRenderer false { s with errorCount := s.errorCount + 1 }
      | .reject => cancelPrompt p.id .missingRenderer false s
      | .resolveNull => cancelPrompt p.id .missingRenderer false s

/-- External triggers of the scheduler: submissions, manual resolution, direct
cancellation, the cancellation bridge firing, the missing-renderer handler, and
an explicit queue-drain step. -/
inductive Op (V : Type) where
  | input (kind : Option String) (hasAbort : Bool) (timeoutMs : Option Nat) (priority : Option Nat)
  | resolve (id : Nat) (v : V)
  | cancel (id : Nat) (reason : Reason)
  | abortFire (id : Nat)
  | timerFire (id : Nat)
  | missingRenderer (policy : Option Policy)
  | drain
  deriving Repr, DecidableEq

/-- One external trigger handled to completion. -/
def step (s : MState V) : Op V → MState V
  | .input k a t pr => input k a t pr s
  | .resolve id v => resolvePrompt id v s
  | .cancel id r => cancelPrompt id r false s
  | .abortFire id => abortFire id s
  | .timerFire id => timerFire id s
  | .missingRenderer pol => handleMissingRenderer pol s
  | .drain => processQueue s

/-- The state of a fresh InputManager. -/
def initState (V : Type) : MState V := {}

/-- Running a sequence of external triggers from a fresh manager. -/
def run (ops : List (Op V)) : MState V :=
  ops.foldl step (initState V)

/-- The prompts reachable in the active slot or the queue. -/
def pendingIds (s : MState V) : List Nat :=
  (s.currentPrompt.toList ++ s.queue).map Prompt.id

/-- The ids whose continuation has been invoked, in invocation order. -/
def settledIds (s : MState V) : List Nat :=
  s.settled.map Prod.fst

/-- Everything of the state except the console diagnostic counters. -/
def observables (s : MState V) :
    List (Prompt V) × Option (Prompt V) × Nat × List (Nat × Option V) ×
      List Nat × List Nat × List Event × Nat :=
  (s.queue, s.currentPrompt, s.nextId, s.settled,
    s.activeListeners, s.activeTimers, s.events, s.notifications)

/-!
Display channels, from display / createDisplayGenerator / updateDisplay /
cancelDisplay in src/inputManager.ts.  A channel is a DisplayState record:
a buffer of pending values, an isCancelled flag, and the subscriber set which
holds at most the one waiting continuation of the single consumer.  The values
yielded by the async generator are recorded in a delivered log.
-/

/-- The observable state of one display channel.  buffer is state.values,
waiting records whether the single consumer has a pull suspended in the
subscriber set, cancelled is state.isCancelled (a deleted channel behaves
identically to a cancelled one for update and pull), and delivered lists the
values the generator has yielded, in order. -/
structure DState (V : Type) where
  buffer : List V := []
  waiting : Bool := false
  cancelled : Bool := false
  delivered : List V := []
  deriving Repr, DecidableEq

/-- The channel state created by display(options): the buffer holds the
initial value when one was supplied. -/
def displayInit (initialValue : Option V) : DState V :=
  { buffer := initialValue.toList }

/-- updateDisplay(id, value) : a silent no-op once cancelled; if a pull is
suspended, deliver the value directly to the waiting subscriber; otherwise
append it to the buffer. -/
def updateDisplay (v : V) (s : DState V) : DState V :=
  if s.cancelled then s
  else if s.waiting then { s with delivered := s.delivered ++ [v], waiting := false }
  else { s with buffer := s.buffer ++ [v] }

/-- One pull of the generator from createDisplayGenerator: after cancellation
the stream has terminated; a buffered value is yielded immediately; otherwise
the pull subscribes and suspends until the next update. -/
def pullStep (s : DState V) : DState V :=
  if s.cancelled then s
  else
    match s.buffer with
    | v :: rest => { s with buffer := rest, delivered := s.delivered ++ [v] }
    | [] => { s with waiting := true }

/-- cancelDisplay(id) : mark the channel cancelled and wake a suspended pull
with the cancellation signal, terminating the stream without a value. -/
def cancelDisplay (s : DState V) : DState V :=
  if s.cancelled then s else { s with cancelled := true, waiting := false }

/-- External triggers of one display channel: producer updates, consumer
pulls, and cancellation. -/
inductive DOp (V : Type) where
  | update (v : V)
  | pull
  | cancel
  deriving Repr, DecidableEq

/-- One display-channel trigger handled to completion. -/
def dstep (s : DState V) : DOp V → DState V
  | .update v => updateDisplay v s
  | .pull => pullStep s
  | .cancel => cancelDisplay s

/-- Running a sequence of triggers on a channel created with the given
initial value. -/
def drun (initialValue : Option V) (ops : List (DOp V)) : DState V :=
  ops.foldl dstep (displayInit initialValue)

/-- The update values a channel accepts from a trigger sequence: every update
before the first cancellation, in call order. -/
def acceptedUpdates : List (DOp V) → List V
  | [] => []
  | .update v :: rest => v :: acceptedUpdates rest
  | .pull :: rest => acceptedUpdates rest
  | .cancel :: _ => []

end ImperativePrompt

namespace PrioSched

/-!
Modelled from the spec: the priority-aware scheduler of sections 3, 4.1 and
4.3 (priority-ordered queue, preemption of a visible display channel by a
higher-priority interactive request, automatic resumption).  This part of the
InputManager implementation is missing from src/: src/inputManager.ts is a
FIFO-only version, while src/PromptInputRenderer.tsx calls
inputManager.setPrioritizeAwaitingInputs and inputManager.getQueue, and
src/__tests__/priority.test.tsx exercises priority insertion and display
suspension, none of which that file provides.  The definitions below follow
the words of the spec: the queue is kept ordered by descending priority with
equal priorities in submission order; with preemption enabled an interactive
request whose priority is strictly greater than that of the visible display
suspends it and takes the slot; the drain step fills a free slot from the
queue head and otherwise resumes a suspended display.  Default priorities are
10 for interactive requests and 0 for display channels.
-/

/-- Modelled from the spec: a pending interactive request of the
priority-aware scheduler (ids are allocated in submission order). -/
structure PPrompt where
  id : Nat
  priority : Option Nat := none
  deriving Repr, DecidableEq

/-- Modelled from the spec: a display channel reference as seen by the
scheduler. -/
structure PDisplay where
  id : Nat
  priority : Option Nat := none
  deriving Repr, DecidableEq

/-- Modelled from the spec: the single foreground occupant — one interactive
request or one display channel. -/
inductive Slot where
  | input (p : PPrompt)
  | display (d : PDisplay)
  deriving Repr, DecidableEq

/-- Modelled from the spec: the scheduler state — preemption mode flag, the
pending queue of interactive requests, the active slot, and the suspended
display reference. -/
structure PState where
  preemptOn : Bool := false
  queue : List PPrompt := []
  slot : Option Slot := none
  suspended : Option PDisplay := none
  nextId : Nat := 0
  deriving Repr, DecidableEq

/-- Modelled from the spec: the effective priority of an interactive request,
defaulting to 10. -/
def prioInput (p : PPrompt) : Nat := p.priority.getD 10

/-- Modelled from the spec: the effective priority of a display channel,
defaulting to 0. -/
def prioDisplay (d : PDisplay) : Nat := d.priority.getD 0

/-- Modelled from the spec: stable priority insertion — the new request is
placed before the first strictly lower-priority element, hence after every
element of greater or equal priority, preserving submission order among
equals. -/
def enqueueByPriority (p : PPrompt) : List PPrompt → List PPrompt
  | [] => [p]
  | q :: rest =>
      if prioInput q < prioInput p then p :: q :: rest
      else q :: enqueueByPriority p rest

/-- Modelled from the spec: queue removal for cancellation of a pending
request. -/
def removeFirstPP (id : Nat) : List PPrompt → List PPrompt
  | [] => []
  | p :: rest => if p.id = id then rest else p :: removeFirstPP id rest

/-- Modelled from the spec: the queue-drain step — an occupied slot is left
alone; otherwise the queue head (highest priority, earliest among equals)
fills the slot; otherwise a suspended display resumes. -/
def pDrain (s : PState) : PState :=
  match s.slot with
  | some _ => s
  | none =>
      match s.queue with
      | p :: rest => { s with slot := some (.input p), queue := rest }
      | [] =>
          match s.suspended with
          | some d => { s with slot := some (.display d), suspended := none }
          | none => s

/-- Modelled from the spec: submission of an interactive request.  With
preemption enabled, a request of strictly greater priority than the visible
display suspends it and takes the slot immediately; otherwise the request is
inserted into the priority queue and the drain step runs. -/
def pSubmit (priority : Option Nat) (s : PState) : PState :=
  let p : PPrompt := { id := s.nextId, priority := priority }
  let s1 := { s with nextId := s.nextId + 1 }
  match s1.slot with
  | some (.display d) =>
      if s1.preemptOn ∧ prioDisplay d < prioInput p then
        { s1 with slot := some (.input p), suspended := some d }
      else pDrain { s1 with queue := enqueueByPriority p s1.queue }
  | _ => pDrain { s1 with queue := enqueueByPriority p s1.queue }

/-- Modelled from the spec: resolving the active interactive request frees the
slot and runs the drain step; other ids are ignored. -/
def pResolve (id : Nat) (s : PState) : PState :=
  match s.slot with
  | some (.input p) => if p.id = id then pDrain { s with slot := none } else s
  | _ => s

/-- Modelled from the spec: cancelling an interactive request — the active one
frees the slot and drains, a queued one is removed in place. -/
def pCancelInput (id : Nat) (s : PState) : PState :=
  match s.slot with
  | some (.input p) =>
      if p.id = id then pDrain { s with slot := none }
      else { s with queue := removeFirstPP id s.queue }
  | _ => { s with queue := removeFirstPP id s.queue }

/-- Modelled from the spec: starting a display channel — it becomes visible
when the slot is free; otherwise only the registry (not modelled here) holds
it. -/
def pStartDisplay (priority : Option Nat) (s : PState) : PState :=
  let d : PDisplay := { id := s.nextId, priority := priority }
  let s1 := { s with nextId := s.nextId + 1 }
  match s1.slot with
  | none => { s1 with slot := some (.display d) }
  | some _ => s1

/-- Modelled from the spec: cancelling a display channel — a suspended one is
dropped, a visible one frees the slot and the drain step runs. -/
def pCancelDisplay (id : Nat) (s : PState) : PState :=
  let s1 :=
    match s.suspended with
    | some d => if d.id = id then { s with suspended := none } else s
    | none => s
  match s1.slot with
  | some (.display d) => if d.id = id then pDrain { s1 with slot := none } else s1
  | _ => s1

/-- Modelled from the spec: external triggers of the priority-aware
scheduler. -/
inductive POp where
  | submit (priority : Option Nat)
  | resolve (id : Nat)
  | cancelInput (id : Nat)
  | startDisplay (priority : Option Nat)
  | cancelDisplay (id : Nat)
  | drain
  deriving Repr, DecidableEq

/-- Modelled from the spec: one trigger handled to completion. -/
def pStep (s : PState) : POp → PState
  | .submit pr => pSubmit pr s
  | .resolve id => pResolve id s
  | .cancelInput id => pCancelInput id s
  | .startDisplay pr => pStartDisplay pr s
  | .cancelDisplay id => pCancelDisplay id s
  | .drain => pDrain s

/-- Modelled from the spec: running a trigger sequence from a fresh scheduler
with the given preemption mode. -/
def pRun (preempt : Bool) (ops : List POp) : PState :=
  ops.foldl pStep { preemptOn := preempt }

/-- The stable descending-priority order: an earlier queue element has
strictly greater priority, or equal priority and an earlier submission id. -/
def QRel (a b : PPrompt) : Prop :=
  prioInput b < prioInput a ∨ (prioInput a = prioInput b ∧ a.id < b.id)

instance : DecidableRel QRel := fun a b => by unfold QRel; infer_instance

/-- The scheduler invariant of the priority-aware model: the queue is in
stable descending-priority order with ids fresh below the allocation counter,
a suspended display implies an interactive request holds the slot, and a free
slot implies nothing is pending. -/
def PInv (s : PState) : Prop :=
  s.queue.Pairwise QRel ∧
  (∀ p ∈ s.queue, p.id < s.nextId) ∧
  (∀ d, s.suspended = some d → ∃ p, s.slot = some (.input p)) ∧
  (s.slot = none → s.queue = [] ∧ s.suspended = none)

end PrioSched

namespace ImperativePrompt

/-- The scheduler invariant of the InputManager model: pending ids are
distinct, settled ids are distinct and disjoint from the pending ones, every
allocated id is pending or settled, and all tracked ids are below the
allocation counter. -/
def Inv {V : Type} (s : MState V) : Prop :=
  (pendingIds s).Nodup ∧
  (settledIds s).Nodup ∧
  (∀ i ∈ settledIds s, i ∉ pendingIds s) ∧
  (∀ i, i < s.nextId → i ∈ pendingIds s ∨ i ∈ settledIds s) ∧
  (∀ i ∈ pendingIds s, i < s.nextId) ∧
  (∀ i ∈ settledIds s, i < s.nextId)

end ImperativePrompt

namespace ImperativePrompt

variable {V : Type}

/-! Basic frame lemmas for the scheduler operations. -/

theorem processQueue_of_some {s : MState V} {p : Prompt V} (h : s.currentPrompt = some p) :
    processQueue s = s := by
  unfold processQueue
  rw [h]

theorem processQueue_currentPrompt {s : MState V} (h : s.currentPrompt = none) :
    (processQueue s).currentPrompt = s.queue.head? := by
  unfold processQueue
  rw [h]
  cases s.queue
  · exact h
  · rfl

theorem processQueue_queue {s : MState V} (h : s.currentPrompt = none) :
    (processQueue s).queue = s.queue.tail := by
  unfold processQueue
  rw [h]
  cases hq : s.queue
  · rw [hq]
    rfl
  · rfl

theorem processQueue_settled (s : MState V) : (processQueue s).settled = s.settled := by
  unfold processQueue
  cases h : s.currentPrompt <;> cases hq : s.queue <;> rfl

theorem processQueue_nextId (s : MState V) : (processQueue s).nextId = s.nextId := by
  unfold processQueue
  cases h : s.currentPrompt <;> cases hq : s.queue <;> rfl

theorem processQueue_events_mem {s : MState V} {e : Event} (h : e ∈ s.events) :
    e ∈ (processQueue s).events := by
  unfold processQueue
  cases hc : s.currentPrompt <;> cases hq : s.queue <;> simp [notify, emit, h]

/-- C9: resolvePrompt with an empty Active Slot is a complete silent no-op —
no continuation invoked, no event, no notification, no diagnostic, queue
untouched — even when the id belongs to a queued Request. -/
theorem claim_C9 (id : Nat) (v : V) (s : MState V) (h : s.currentPrompt = none) :
    resolvePrompt id v s = s := by
  unfold resolvePrompt
  rw [h]

theorem claim_C9_witness :
    (let s : MState Nat :=
      { queue := [{ id := 3 }], currentPrompt := none, nextId := 4 }
     s.currentPrompt = none ∧ resolvePrompt 3 5 s = s) :=
  ⟨rfl, claim_C9 3 5 _ rfl⟩

/-- C5: resolvePrompt with a non-matching id while a Request is active only
counts a console.warn diagnostic and changes nothing else; with a matching id
it empties the slot, invokes the continuation with the value, emits the
resolved event, and runs the queue-drain step so the next queued Request, if
any, becomes active. -/
theorem claim_C5 (id : Nat) (v : V) (s : MState V) (p : Prompt V)
    (h : s.currentPrompt = some p) :
    (p.id ≠ id → resolvePrompt id v s = { s with warnCount := s.warnCount + 1 }) ∧
    (p.id = id →
      (resolvePrompt id v s).currentPrompt = s.queue.head? ∧
      (resolvePrompt id v s).queue = s.queue.tail ∧
      (resolvePrompt id v s).settled = s.settled ++ [(id, some v)] ∧
      Event.resolved id ∈ (resolvePrompt id v s).events) := by
  constructor
  · intro hne
    unfold resolvePrompt
    rw [h]
    simp [hne]
  · intro heq
    have hre : resolvePrompt id v s =
        processQueue (notify (emit (.resolved id)
          (settleWrapped p (some v) { s with currentPrompt := none }))) := by
      unfold resolvePrompt
      rw [h]
      simp [heq]
    rw [hre]
    refine ⟨?_, ?_, ?_, ?_⟩
    · rw [processQueue_currentPrompt rfl]
      rfl
    · rw [processQueue_queue rfl]
      rfl
    · rw [processQueue_settled]
      simp [notify, emit, settleWrapped, heq]
    · exact processQueue_events_mem (by simp [notify, emit, settleWrapped])

theorem findById_some {id : Nat} {l : List (Prompt V)} {p : Prompt V}
    (h : findById id l = some p) : p.id = id ∧ p ∈ l := by
  induction l with
  | nil => simp [findById] at h
  | cons q rest ih =>
      unfold findById at h
      by_cases hq : q.id = id
      · simp [hq] at h
        subst h
        exact ⟨hq, List.mem_cons_self q rest⟩
      · simp [hq] at h
        rcases ih h with ⟨h1, h2⟩
        exact ⟨h1, List.mem_cons_of_mem q h2⟩

theorem removeFirstById_sublist (id : Nat) (l : List (Prompt V)) :
    (removeFirstById id l).Sublist l := by
  induction l with
  | nil => exact List.Sublist.refl []
  | cons q rest ih =>
      unfold removeFirstById
      by_cases hq : q.id = id
      · simp [hq]
      · simp [hq]
        exact ih

/-- C6: cancelling a Request still in the Queue splices exactly it out,
invokes its continuation with the null sentinel, and emits the canceled event,
while the active Request and the relative order of the remaining queued
Requests are untouched and no queue-drain runs; cancelling the active Request
clears the slot and does drain the queue. -/
theorem claim_C6 (id : Nat) (reason : Reason) (direct : Bool) (s : MState V) :
    (∀ p, findById id s.queue = some p →
      (∀ c, s.currentPrompt = some c → c.id ≠ id) →
      (cancelPrompt id reason direct s).queue = removeFirstById id s.queue ∧
      (removeFirstById id s.queue).Sublist s.queue ∧
      (cancelPrompt id reason direct s).currentPrompt = s.currentPrompt ∧
      (cancelPrompt id reason direct s).settled = s.settled ++ [(id, none)] ∧
      (cancelPrompt id reason direct s).events = s.events ++ [Event.canceled id reason]) ∧
    (∀ p, s.currentPrompt = some p → p.id = id →
      (cancelPrompt id reason direct s).currentPrompt = s.queue.head? ∧
      (cancelPrompt id reason direct s).queue = s.queue.tail ∧
      (cancelPrompt id reason direct s).settled = s.settled ++ [(id, none)]) := by
  constructor
  · intro p hfind hcur
    have hqr : cancelPrompt id reason direct s = cancelQueued id reason direct s := by
      unfold cancelPrompt
      cases hc : s.currentPrompt with
      | none => rfl
      | some c => simp [hcur c hc]
    have hpid : p.id = id := (findById_some hfind).1
    rw [hqr]
    unfold cancelQueued
    rw [hfind]
    cases direct <;>
      simp [notify, emit, settleRaw, settleWrapped, hpid, removeFirstById_sublist]
  · intro p hc hpid
    have hcp : cancelPrompt id reason direct s =
        processQueue (notify (emit (.canceled id reason)
          (settleWrapped p none { s with currentPrompt := none }))) := by
      unfold cancelPrompt
      rw [hc]
      simp [hpid]
    rw [hcp]
    refine ⟨?_, ?_, ?_⟩
    · rw [processQueue_currentPrompt rfl]
      rfl
    · rw [processQueue_queue rfl]
      rfl
    · rw [processQueue_settled]
      simp [notify, emit, settleWrapped, hpid]

theorem claim_C6_witness :
    (let s : MState Nat :=
      { queue := [{ id := 1 }, { id := 2 }], currentPrompt := some { id := 0 }, nextId := 3 }
     (findById 2 s.queue = some { id := 2 } ∧ (∀ c, s.currentPrompt = some c → c.id ≠ 2)) ∧
     ((cancelPrompt 2 Reason.abort true s).queue = removeFirstById 2 s.queue ∧
      (removeFirstById 2 s.queue).Sublist s.queue ∧
      (cancelPrompt 2 Reason.abort true s).currentPrompt = s.currentPrompt ∧
      (cancelPrompt 2 Reason.abort true s).settled = s.settled ++ [(2, none)] ∧
      (cancelPrompt 2 Reason.abort true s).events = s.events ++ [Event.canceled 2 Reason.abort]) ∧
     ((cancelPrompt 0 Reason.manual false s).currentPrompt = s.queue.head? ∧
      (cancelPrompt 0 Reason.manual false s).queue = s.queue.tail ∧
      (cancelPrompt 0 Reason.manual false s).settled = s.settled ++ [(0, none)])) :=
  ⟨⟨rfl, by decide⟩,
    (claim_C6 2 Reason.abort true _).1 { id := 2 } rfl (by decide),
    (claim_C6 0 Reason.manual false _).2 { id := 0 } rfl rfl⟩

theorem processQueue_errorCount_comm (s : MState V) (e : Nat) :
    processQueue { s with errorCount := e } = { processQueue s with errorCount := e } := by
  unfold processQueue
  cases hc : s.currentPrompt <;> cases hq : s.queue <;> simp [notify, emit, hc, hq]

theorem cancelQueued_errorCount_comm (id : Nat) (r : Reason) (d : Bool) (s : MState V) (e : Nat) :
    cancelQueued id r d { s with errorCount := e } = { cancelQueued id r d s with errorCount := e } := by
  unfold cancelQueued
  rw [show ({ s with errorCount := e } : MState V).queue = s.queue from rfl]
  cases hf : findById id s.queue with
  | none => rfl
  | some p => cases d <;> simp [notify, emit, settleRaw, settleWrapped]

theorem cancelPrompt_queued_eq {id : Nat} {r : Reason} {d : Bool} {s : MState V}
    (hc : ∀ c, s.currentPrompt = some c → c.id ≠ id) :
    cancelPrompt id r d s = cancelQueued id r d s := by
  unfold cancelPrompt
  cases h : s.currentPrompt with
  | none => rfl
  | some c => simp [hc c h]

theorem cancelPrompt_hit_eq {id : Nat} {r : Reason} {d : Bool} {s : MState V} {p : Prompt V}
    (hc : s.currentPrompt = some p) (hp : p.id = id) :
    cancelPrompt id r d s = processQueue (notify (emit (.canceled id r)
      (settleWrapped p none { s with currentPrompt := none }))) := by
  unfold cancelPrompt
  rw [hc]
  simp [hp]

theorem cancelPrompt_errorCount_comm (id : Nat) (r : Reason) (d : Bool) (s : MState V) (e : Nat) :
    cancelPrompt id r d { s with errorCount := e } = { cancelPrompt id r d s with errorCount := e } := by
  set t : MState V := { s with errorCount := e } with ht
  cases hc : s.currentPrompt with
  | none =>
      have hct : t.currentPrompt = none := hc
      rw [cancelPrompt_queued_eq (fun c h => by rw [hct] at h; cases h),
          cancelPrompt_queued_eq (fun c h => by rw [hc] at h; cases h)]
      rw [ht]
      exact cancelQueued_errorCount_comm id r d s e
  | some p =>
      have hct : t.currentPrompt = some p := hc
      by_cases hp : p.id = id
      · rw [cancelPrompt_hit_eq hct hp, cancelPrompt_hit_eq hc hp]
        rw [ht]
        rw [show (settleWrapped p none
              { ({ s with errorCount := e } : MState V) with currentPrompt := none }) =
            { settleWrapped p none { s with currentPrompt := none } with errorCount := e } from rfl]
        rw [show (emit (.canceled id r)
              { settleWrapped p none { s with currentPrompt := none } with errorCount := e }) =
            { emit (.canceled id r) (settleWrapped p none { s with currentPrompt := none })
              with errorCount := e } from rfl]
        rw [show (notify { emit (.canceled id r)
              (settleWrapped p none { s with currentPrompt := none }) with errorCount := e }) =
            { notify (emit (.canceled id r) (settleWrapped p none { s with currentPrompt := none }))
              with errorCount := e } from rfl]
        exact processQueue_errorCount_comm _ e
      · rw [cancelPrompt_queued_eq (fun c h => by rw [hct] at h; cases h; exact hp),
            cancelPrompt_queued_eq (fun c h => by rw [hc] at h; cases h; exact hp)]
        rw [ht]
        exact cancelQueued_errorCount_comm id r d s e

theorem processQueue_errorCount (s : MState V) :
    (processQueue s).errorCount = s.errorCount := by
  unfold processQueue
  cases hc : s.currentPrompt <;> cases hq : s.queue <;> rfl

theorem observables_erase_errorCount (s : MState V) (e : Nat) :
    observables { s with errorCount := e } = observables s := rfl

/-- C8: under every missing-renderer policy, handleMissingRenderer with an
occupied Active Slot cancels the active Request with reason missing-renderer:
its continuation settles to the null sentinel, the canceled event is emitted,
and the queue drains so the next pending Request, if any, becomes active; the
three policies agree on everything except the surfaced diagnostic, which only
the throw policy adds. -/
theorem claim_C8 (pol : Policy) (s : MState V) (p : Prompt V)
    (h : s.currentPrompt = some p) :
    (handleMissingRenderer (some pol) s).settled = s.settled ++ [(p.id, none)] ∧
    (handleMissingRenderer (some pol) s).currentPrompt = s.queue.head? ∧
    (handleMissingRenderer (some pol) s).queue = s.queue.tail ∧
    Event.canceled p.id Reason.missingRenderer ∈ (handleMissingRenderer (some pol) s).events ∧
    observables (handleMissingRenderer (some Policy.throw) s) =
      observables (handleMissingRenderer (some pol) s) ∧
    (handleMissingRenderer (some Policy.throw) s).errorCount = s.errorCount + 1 ∧
    (handleMissingRenderer (some pol) s).errorCount =
      (if pol = Policy.throw then s.errorCount + 1 else s.errorCount) := by
  have hbase : cancelPrompt p.id Reason.missingRenderer false s =
      processQueue (notify (emit (.canceled p.id Reason.missingRenderer)
        (settleWrapped p none { s with currentPrompt := none }))) :=
    cancelPrompt_hit_eq h rfl
  have hthrow : handleMissingRenderer (some Policy.throw) s =
      { cancelPrompt p.id Reason.missingRenderer false s with errorCount := s.errorCount + 1 } := by
    have h1 : handleMissingRenderer (some Policy.throw) s =
        cancelPrompt p.id Reason.missingRenderer false { s with errorCount := s.errorCount + 1 } := by
      unfold handleMissingRenderer
      nth_rewrite 1 [h]
      rfl
    rw [h1]
    exact cancelPrompt_errorCount_comm p.id Reason.missingRenderer false s (s.errorCount + 1)
  have hother : ∀ q : Policy, q ≠ Policy.throw →
      handleMissingRenderer (some q) s = cancelPrompt p.id Reason.missingRenderer false s := by
    intro q hq
    unfold handleMissingRenderer
    nth_rewrite 1 [h]
    cases q with
    | throw => exact absurd rfl hq
    | reject => rfl
    | resolveNull => rfl
  have hsettle : (cancelPrompt p.id Reason.missingRenderer false s).settled =
      s.settled ++ [(p.id, none)] := by
    rw [hbase, processQueue_settled]
    simp [notify, emit, settleWrapped]
  have hcur : (cancelPrompt p.id Reason.missingRenderer false s).currentPrompt =
      s.queue.head? := by
    rw [hbase, processQueue_currentPrompt rfl]
    rfl
  have hq : (cancelPrompt p.id Reason.missingRenderer false s).queue = s.queue.tail := by
    rw [hbase, processQueue_queue rfl]
    rfl
  have hev : Event.canceled p.id Reason.missingRenderer ∈
      (cancelPrompt p.id Reason.missingRenderer false s).events := by
    rw [hbase]
    exact processQueue_events_mem (by simp [notify, emit, settleWrapped])
  have herr : (cancelPrompt p.id Reason.missingRenderer false s).errorCount = s.errorCount := by
    rw [hbase, processQueue_errorCount]
    rfl
  cases pol with
  | throw =>
      rw [hthrow]
      exact ⟨hsettle, hcur, hq, hev, rfl, rfl, by simp⟩
  | reject =>
      rw [hother Policy.reject (by decide), hthrow]
      exact ⟨hsettle, hcur, hq, hev, observables_erase_errorCount _ _, rfl,
        by simpa using herr⟩
  | resolveNull =>
      rw [hother Policy.resolveNull (by decide), hthrow]
      exact ⟨hsettle, hcur, hq, hev, observables_erase_errorCount _ _, rfl,
        by simpa using herr⟩

theorem claim_C8_witness :
    (let s : MState Nat :=
      { queue := [{ id := 1 }], currentPrompt := some { id := 0 }, nextId := 2 }
     s.currentPrompt = some { id := 0 } ∧
     ((handleMissingRenderer (some Policy.reject) s).settled = s.settled ++ [(0, none)] ∧
      (handleMissingRenderer (some Policy.reject) s).currentPrompt = s.queue.head? ∧
      (handleMissingRenderer (some Policy.reject) s).queue = s.queue.tail ∧
      Event.canceled 0 Reason.missingRenderer ∈ (handleMissingRenderer (some Policy.reject) s).events ∧
      observables (handleMissingRenderer (some Policy.throw) s) =
        observables (handleMissingRenderer (some Policy.reject) s) ∧
      (handleMissingRenderer (some Policy.throw) s).errorCount = s.errorCount + 1 ∧
      (handleMissingRenderer (some Policy.reject) s).errorCount =
        (if Policy.reject = Policy.throw then s.errorCount + 1 else s.errorCount))) :=
  ⟨rfl, claim_C8 Policy.reject _ { id := 0 } rfl⟩

/-- C3: refuted on the code — a queued Request carrying both an abort signal
and a timeout is settled by its abort firing through the directResolve path of
cancelPrompt, which invokes the raw promise resolve and skips the cleanup
wrapper, so its timeout timer stays registered after settlement.  The trace:
request 0 is submitted and becomes active; request 1 is submitted with an
abort signal and timeoutMs 1000 and stays queued; the abort fires.  Request 1
settles with the null sentinel exactly once, yet its timer is still in the
active timer set, contradicting both the claim and the cleanup comment in
input(). -/
theorem claim_C3_cleanup_leak :
    (run (V := Nat) [.input none false none none, .input none true (some 1000) none,
      .abortFire 1]).settled = [(1, none)] ∧
    (run (V := Nat) [.input none false none none, .input none true (some 1000) none,
      .abortFire 1]).activeTimers = [1] ∧
    (run (V := Nat) [.input none false none none, .input none true (some 1000) none,
      .abortFire 1]).activeListeners = [] := by
  refine ⟨?_, ?_, ?_⟩ <;> rfl

theorem removeFirstById_ids_mem (id : Nat) (l : List (Prompt V))
    (hnd : (l.map Prompt.id).Nodup) (i : Nat) :
    i ∈ (removeFirstById id l).map Prompt.id ↔ (i ∈ l.map Prompt.id ∧ i ≠ id) := by
  induction l with
  | nil => simp [removeFirstById]
  | cons q rest ih =>
      simp only [List.map_cons, List.nodup_cons] at hnd
      obtain ⟨hq, hrest⟩ := hnd
      unfold removeFirstById
      by_cases hqe : q.id = id
      · simp only [hqe, if_true, List.map_cons, List.mem_cons]
        constructor
        · intro hi
          refine ⟨Or.inr hi, ?_⟩
          rintro rfl
          rw [hqe] at hq
          exact hq hi
        · rintro ⟨hor, hne⟩
          rcases hor with hor | hor
          · exact absurd hor hne
          · exact hor
      · simp only [hqe, if_false, List.map_cons, List.mem_cons]
        constructor
        · intro hi
          rcases hi with hi | hi
          · exact ⟨Or.inl hi, by rintro rfl; exact hqe hi.symm⟩
          · rcases (ih hrest).mp hi with ⟨hm, hne⟩
            exact ⟨Or.inr hm, hne⟩
        · rintro ⟨hor, hne⟩
          rcases hor with hor | hor
          · exact Or.inl hor
          · exact Or.inr ((ih hrest).mpr ⟨hor, hne⟩)

theorem removeFirstById_ids_nodup (id : Nat) (l : List (Prompt V))
    (hnd : (l.map Prompt.id).Nodup) :
    ((removeFirstById id l).map Prompt.id).Nodup :=
  hnd.sublist ((removeFirstById_sublist id l).map Prompt.id)

theorem pendingIds_processQueue (s : MState V) :
    pendingIds (processQueue s) = pendingIds s := by
  unfold processQueue
  cases hc : s.currentPrompt <;> cases hq : s.queue <;>
    simp [pendingIds, notify, emit, hc, hq]

theorem inv_transport {s t : MState V} (hp : pendingIds t = pendingIds s)
    (hs : t.settled = s.settled) (hn : t.nextId = s.nextId) (h : Inv s) : Inv t := by
  have hsi : settledIds t = settledIds s := by unfold settledIds; rw [hs]
  unfold Inv at h ⊢
  rw [hp, hsi, hn]
  exact h

theorem inv_clearSettle {s : MState V} {p : Prompt V} (hc : s.currentPrompt = some p)
    (w : Option V) (e : Event) (h : Inv s) :
    Inv (processQueue (notify (emit e
      (settleWrapped p w { s with currentPrompt := none })))) := by
  set t := processQueue (notify (emit e
    (settleWrapped p w { s with currentPrompt := none }))) with ht
  have hp : pendingIds t = s.queue.map Prompt.id := by
    rw [ht, pendingIds_processQueue]
    simp [pendingIds, notify, emit, settleWrapped]
  have hs : settledIds t = settledIds s ++ [p.id] := by
    unfold settledIds
    rw [ht, processQueue_settled]
    simp [notify, emit, settleWrapped]
  have hn : t.nextId = s.nextId := by
    rw [ht, processQueue_nextId]
    rfl
  have hps : pendingIds s = p.id :: s.queue.map Prompt.id := by
    simp [pendingIds, hc]
  obtain ⟨h1, h2, h3, h4, h5, h6⟩ := h
  rw [hps] at h1 h3 h4 h5
  rw [List.nodup_cons] at h1
  obtain ⟨hpid, hqnd⟩ := h1
  have hpid_not_settled : p.id ∉ settledIds s := fun hmem =>
    (h3 p.id hmem) (List.mem_cons_self p.id _)
  refine ⟨?_, ?_, ?_, ?_, ?_, ?_⟩
  · rw [hp]
    exact hqnd
  · rw [hs, List.nodup_append]
    exact ⟨h2, List.nodup_singleton _, by simpa using hpid_not_settled⟩
  · intro i hi
    rw [hs] at hi
    rw [hp]
    rcases List.mem_append.mp hi with hi | hi
    · intro hmem
      exact (h3 i hi) (List.mem_cons_of_mem _ hmem)
    · rw [List.mem_singleton] at hi
      subst hi
      exact hpid
  · intro i hlt
    rw [hn] at hlt
    rcases h4 i hlt with hmem | hmem
    · rcases List.mem_cons.mp hmem with hmem | hmem
      · subst hmem
        right
        rw [hs]
        exact List.mem_append_right _ (List.mem_singleton_self _)
      · left
        rw [hp]
        exact hmem
    · right
      rw [hs]
      exact List.mem_append_left _ hmem
  · intro i hi
    rw [hp] at hi
    rw [hn]
    exact h5 i (List.mem_cons_of_mem _ hi)
  · intro i hi
    rw [hs] at hi
    rw [hn]
    rcases List.mem_append.mp hi with hi | hi
    · exact h6 i hi
    · rw [List.mem_singleton] at hi
      subst hi
      exact h5 p.id (List.mem_cons_self _ _)

theorem inv_cancelQueued (id : Nat) (r : Reason) (d : Bool) {s : MState V}
    (h : Inv s) : Inv (cancelQueued id r d s) := by
  cases hf : findById id s.queue with
  | none =>
      have heq : cancelQueued id r d s = s := by
        unfold cancelQueued
        rw [hf]
      rw [heq]
      exact h
  | some p =>
      obtain ⟨hpid, hpmem⟩ := findById_some hf
      set t := cancelQueued id r d s with ht
      have hq : t.queue = removeFirstById id s.queue ∧ t.currentPrompt = s.currentPrompt ∧
          t.settled = s.settled ++ [(id, none)] ∧ t.nextId = s.nextId := by
        rw [ht]
        unfold cancelQueued
        rw [hf]
        cases d <;> simp [notify, emit, settleRaw, settleWrapped, hpid]
      obtain ⟨hq1, hq2, hq3, hq4⟩ := hq
      have hp : pendingIds t = s.currentPrompt.toList.map Prompt.id ++
          (removeFirstById id s.queue).map Prompt.id := by
        unfold pendingIds
        rw [hq1, hq2, List.map_append]
      have hsid : settledIds t = settledIds s ++ [id] := by
        unfold settledIds
        rw [hq3]
        simp
      have hpend : pendingIds s = s.currentPrompt.toList.map Prompt.id ++
          s.queue.map Prompt.id := by
        unfold pendingIds
        rw [List.map_append]
      have hidq : id ∈ s.queue.map Prompt.id := by
        rw [← hpid]
        exact List.mem_map_of_mem Prompt.id hpmem
      obtain ⟨h1, h2, h3, h4, h5, h6⟩ := h
      rw [hpend] at h1 h3 h4 h5
      rw [List.nodup_append] at h1
      obtain ⟨hand, hbnd, hdisj⟩ := h1
      have hmemB : ∀ i, i ∈ (removeFirstById id s.queue).map Prompt.id ↔
          (i ∈ s.queue.map Prompt.id ∧ i ≠ id) :=
        removeFirstById_ids_mem id s.queue hbnd
      have hid_not_settled : id ∉ settledIds s := fun hmem =>
        (h3 id hmem) (List.mem_append_right _ hidq)
      refine ⟨?_, ?_, ?_, ?_, ?_, ?_⟩
      · rw [hp, List.nodup_append]
        refine ⟨hand, removeFirstById_ids_nodup id s.queue hbnd, ?_⟩
        intro i hiA hiB
        exact hdisj hiA ((hmemB i).mp hiB).1
      · rw [hsid, List.nodup_append]
        exact ⟨h2, List.nodup_singleton _, by simpa using hid_not_settled⟩
      · intro i hi
        rw [hsid] at hi
        rw [hp]
        rcases List.mem_append.mp hi with hi | hi
        · intro hmem
          rcases List.mem_append.mp hmem with hmem | hmem
          · exact (h3 i hi) (List.mem_append_left _ hmem)
          · exact (h3 i hi) (List.mem_append_right _ ((hmemB i).mp hmem).1)
        · rw [List.mem_singleton] at hi
          subst hi
          intro hmem
          rcases List.mem_append.mp hmem with hmem | hmem
          · exact (hdisj hmem) hidq
          · exact ((hmemB i).mp hmem).2 rfl
      · intro i hlt
        rw [hq4] at hlt
        rcases h4 i hlt with hmem | hmem
        · rcases List.mem_append.mp hmem with hmem | hmem
          · left
            rw [hp]
            exact List.mem_append_left _ hmem
          · by_cases hie : i = id
            · right
              rw [hsid]
              exact List.mem_append_right _ (by simp [hie])
            · left
              rw [hp]
              exact List.mem_append_right _ ((hmemB i).mpr ⟨hmem, hie⟩)
        · right
          rw [hsid]
          exact List.mem_append_left _ hmem
      · intro i hi
        rw [hp] at hi
        rw [hq4]
        rcases List.mem_append.mp hi with hi | hi
        · exact h5 i (List.mem_append_left _ hi)
        · exact h5 i (List.mem_append_right _ ((hmemB i).mp hi).1)
      · intro i hi
        rw [hsid] at hi
        rw [hq4]
        rcases List.mem_append.mp hi with hi | hi
        · exact h6 i hi
        · rw [List.mem_singleton] at hi
          subst hi
          exact h5 i (List.mem_append_right _ hidq)

theorem inv_cancelPrompt (id : Nat) (r : Reason) (d : Bool) {s : MState V}
    (h : Inv s) : Inv (cancelPrompt id r d s) := by
  cases hc : s.currentPrompt with
  | none =>
      rw [cancelPrompt_queued_eq (fun c hcc => by rw [hc] at hcc; cases hcc)]
      exact inv_cancelQueued id r d h
  | some p =>
      by_cases hp : p.id = id
      · rw [cancelPrompt_hit_eq hc hp]
        exact inv_clearSettle hc none (.canceled id r) h
      · rw [cancelPrompt_queued_eq (fun c hcc => by rw [hc] at hcc; cases hcc; exact hp)]
        exact inv_cancelQueued id r d h

theorem inv_resolvePrompt (id : Nat) (v : V) {s : MState V}
    (h : Inv s) : Inv (resolvePrompt id v s) := by
  cases hc : s.currentPrompt with
  | none =>
      have heq : resolvePrompt id v s = s := by
        unfold resolvePrompt
        rw [hc]
      rw [heq]
      exact h
  | some p =>
      by_cases hp : p.id = id
      · have heq : resolvePrompt id v s = processQueue (notify (emit (.resolved id)
            (settleWrapped p (some v) { s with currentPrompt := none }))) := by
          unfold resolvePrompt
          rw [hc]
          simp [hp]
        rw [heq]
        exact inv_clearSettle hc (some v) (.resolved id) h
      · have heq : resolvePrompt id v s = { s with warnCount := s.warnCount + 1 } := by
          unfold resolvePrompt
          rw [hc]
          simp [hp]
        rw [heq]
        exact inv_transport rfl rfl rfl h

theorem inv_input (k : Option String) (a : Bool) (t : Option Nat) (pr : Option Nat)
    {s : MState V} (h : Inv s) : Inv (input k a t pr s) := by
  set u := input k a t pr s with hu
  have hp : pendingIds u = pendingIds s ++ [s.nextId] := by
    rw [hu]
    unfold input
    rw [show ∀ x : MState V, pendingIds (notify x) = pendingIds x from fun x => rfl]
    rw [pendingIds_processQueue]
    simp [pendingIds, List.map_append]
  have hsid : settledIds u = settledIds s := by
    unfold settledIds
    rw [hu]
    unfold input
    rw [show ∀ x : MState V, (notify x).settled = x.settled from fun x => rfl]
    rw [processQueue_settled]
  have hn : u.nextId = s.nextId + 1 := by
    rw [hu]
    unfold input
    rw [show ∀ x : MState V, (notify x).nextId = x.nextId from fun x => rfl]
    rw [processQueue_nextId]
  obtain ⟨h1, h2, h3, h4, h5, h6⟩ := h
  have hfresh : s.nextId ∉ pendingIds s := fun hmem =>
    lt_irrefl s.nextId (h5 s.nextId hmem)
  refine ⟨?_, ?_, ?_, ?_, ?_, ?_⟩
  · rw [hp, List.nodup_append]
    exact ⟨h1, List.nodup_singleton _, by simpa using hfresh⟩
  · rw [hsid]
    exact h2
  · intro i hi
    rw [hsid] at hi
    rw [hp]
    intro hmem
    rcases List.mem_append.mp hmem with hmem | hmem
    · exact (h3 i hi) hmem
    · rw [List.mem_singleton] at hmem
      exact absurd (h6 i hi) (by rw [hmem]; exact lt_irrefl _)
  · intro i hlt
    rw [hn] at hlt
    rcases Nat.lt_succ_iff_lt_or_eq.mp hlt with hlt | heq
    · rcases h4 i hlt with hmem | hmem
      · left
        rw [hp]
        exact List.mem_append_left _ hmem
      · right
        rw [hsid]
        exact hmem
    · left
      rw [hp, heq]
      exact List.mem_append_right _ (List.mem_singleton_self _)
  · intro i hi
    rw [hp] at hi
    rw [hn]
    rcases List.mem_append.mp hi with hi | hi
    · exact Nat.lt_succ_of_lt (h5 i hi)
    · rw [List.mem_singleton] at hi
      subst hi
      exact Nat.lt_succ_self _
  · intro i hi
    rw [hsid] at hi
    rw [hn]
    exact Nat.lt_succ_of_lt (h6 i hi)

theorem inv_abortFire (id : Nat) {s : MState V} (h : Inv s) : Inv (abortFire id s) := by
  unfold abortFire
  by_cases hmem : id ∈ s.activeListeners
  · simp only [hmem, if_true]
    exact inv_cancelPrompt id .abort true (inv_transport rfl rfl rfl h)
  · simp only [hmem, if_false]
    exact h

theorem inv_timerFire (id : Nat) {s : MState V} (h : Inv s) : Inv (timerFire id s) := by
  unfold timerFire
  by_cases hmem : id ∈ s.activeTimers
  · simp only [hmem, if_true]
    exact inv_cancelPrompt id .timeout true (inv_transport rfl rfl rfl h)
  · simp only [hmem, if_false]
    exact h

theorem inv_handleMissingRenderer (pol : Option Policy) {s : MState V}
    (h : Inv s) : Inv (handleMissingRenderer pol s) := by
  cases hc : s.currentPrompt with
  | none =>
      have heq : handleMissingRenderer pol s = s := by
        unfold handleMissingRenderer
        rw [hc]
      rw [heq]
      exact h
  | some p =>
      cases hpol : pol.getD Policy.resolveNull with
      | throw =>
          have heq : handleMissingRenderer pol s = cancelPrompt p.id .missingRenderer false
              { s with errorCount := s.errorCount + 1 } := by
            unfold handleMissingRenderer
            nth_rewrite 1 [hc]
            rw [hpol]
          rw [heq]
          exact inv_cancelPrompt p.id .missingRenderer false (inv_transport rfl rfl rfl h)
      | reject =>
          have heq : handleMissingRenderer pol s =
              cancelPrompt p.id .missingRenderer false s := by
            unfold handleMissingRenderer
            nth_rewrite 1 [hc]
            rw [hpol]
          rw [heq]
          exact inv_cancelPrompt p.id .missingRenderer false h
      | resolveNull =>
          have heq : handleMissingRenderer pol s =
              cancelPrompt p.id .missingRenderer false s := by
            unfold handleMissingRenderer
            nth_rewrite 1 [hc]
            rw [hpol]
          rw [heq]
          exact inv_cancelPrompt p.id .missingRenderer false h

theorem inv_init : Inv (initState V) := by
  refine ⟨?_, ?_, ?_, ?_, ?_, ?_⟩ <;>
    simp [initState, pendingIds, settledIds]

theorem inv_step {s : MState V} (op : Op V) (h : Inv s) : Inv (step s op) := by
  cases op with
  | input k a t pr => exact inv_input k a t pr h
  | resolve id v => exact inv_resolvePrompt id v h
  | cancel id r => exact inv_cancelPrompt id r false h
  | abortFire id => exact inv_abortFire id h
  | timerFire id => exact inv_timerFire id h
  | missingRenderer pol => exact inv_handleMissingRenderer pol h
  | drain =>
      exact inv_transport (pendingIds_processQueue s) (processQueue_settled s)
        (processQueue_nextId s) h

theorem inv_run (ops : List (Op V)) : Inv (run ops) := by
  have hfold : ∀ (l : List (Op V)) (s : MState V), Inv s → Inv (l.foldl step s) := by
    intro l
    induction l with
    | nil => exact fun s hs => hs
    | cons op rest ih => exact fun s hs => ih (step s op) (inv_step op hs)
  exact hfold ops (initState V) inv_init

/-- C1: over every sequence of external triggers — submissions, manual
resolutions, cancellations, abort and timer firings, missing-renderer
handling, and drain steps — every allocated Request id has its continuation
invoked at most once; while it is pending it has not been settled, and as soon
as it leaves the Active Slot and the Queue it has been settled exactly once
(with a value or the null sentinel), never to reappear. -/
theorem claim_C1 (ops : List (Op V)) (id : Nat) (h : id < (run ops).nextId) :
    (settledIds (run ops)).count id ≤ 1 ∧
    (id ∈ pendingIds (run ops) → id ∉ settledIds (run ops)) ∧
    (id ∉ pendingIds (run ops) → (settledIds (run ops)).count id = 1) := by
  obtain ⟨h1, h2, h3, h4, h5, h6⟩ := inv_run (V := V) ops
  refine ⟨List.nodup_iff_count_le_one.mp h2 id, fun hp hs => (h3 id hs) hp, fun hnp => ?_⟩
  have hmem : id ∈ settledIds (run ops) := by
    rcases h4 id h with hmem | hmem
    · exact absurd hmem hnp
    · exact hmem
  exact List.count_eq_one_of_mem h2 hmem

theorem claim_C1_witness :
    (0 < (run (V := Nat) [.input none false none none, .resolve 0 5]).nextId ∧
     ((settledIds (run (V := Nat) [.input none false none none, .resolve 0 5])).count 0 ≤ 1 ∧
      (0 ∈ pendingIds (run (V := Nat) [.input none false none none, .resolve 0 5]) →
        0 ∉ settledIds (run (V := Nat) [.input none false none none, .resolve 0 5])) ∧
      (0 ∉ pendingIds (run (V := Nat) [.input none false none none, .resolve 0 5]) →
        (settledIds (run (V := Nat) [.input none false none none, .resolve 0 5])).count 0 = 1))) :=
  ⟨by decide, claim_C1 [.input none false none none, .resolve 0 5] 0 (by decide)⟩

/-! Display-channel lemmas. -/

theorem dstep_of_cancelled {s : DState V} (h : s.cancelled = true) (op : DOp V) :
    dstep s op = s := by
  cases op <;> simp [dstep, updateDisplay, pullStep, cancelDisplay, h]

theorem dfold_of_cancelled {s : DState V} (h : s.cancelled = true) (ops : List (DOp V)) :
    ops.foldl dstep s = s := by
  induction ops with
  | nil => rfl
  | cons op rest ih =>
      rw [List.foldl_cons, dstep_of_cancelled h]
      exact ih

theorem cancelDisplay_cancelled (s : DState V) : (cancelDisplay s).cancelled = true := by
  unfold cancelDisplay
  by_cases h : s.cancelled = true <;> simp [h]

theorem dfold_order : ∀ (ops : List (DOp V)) (s : DState V),
    (s.waiting = true → s.buffer = []) → s.cancelled = false →
    (ops.foldl dstep s).cancelled = false →
    (ops.foldl dstep s).delivered ++ (ops.foldl dstep s).buffer =
      s.delivered ++ s.buffer ++ acceptedUpdates ops := by
  intro ops
  induction ops with
  | nil =>
      intro s hwb hc hcf
      simp [acceptedUpdates]
  | cons op rest ih =>
      intro s hwb hc hcf
      rw [List.foldl_cons] at hcf ⊢
      cases op with
      | update v =>
          by_cases hw : s.waiting = true
          · have hstep : dstep s (.update v) =
                { s with delivered := s.delivered ++ [v], waiting := false } := by
              simp [dstep, updateDisplay, hc, hw]
            rw [hstep] at hcf ⊢
            rw [ih { s with delivered := s.delivered ++ [v], waiting := false }
              (fun h => by simp at h) hc hcf]
            simp [acceptedUpdates, hwb hw]
          · have hstep : dstep s (.update v) = { s with buffer := s.buffer ++ [v] } := by
              simp [dstep, updateDisplay, hc, hw]
            rw [hstep] at hcf ⊢
            rw [ih { s with buffer := s.buffer ++ [v] }
              (fun h => absurd h hw) hc hcf]
            simp [acceptedUpdates]
      | pull =>
          cases hb : s.buffer with
          | nil =>
              have hstep : dstep s .pull = { s with waiting := true } := by
                simp [dstep, pullStep, hc, hb]
              rw [hstep] at hcf ⊢
              rw [ih { s with waiting := true } (fun _ => hb) hc hcf]
              simp [acceptedUpdates, hb]
          | cons v vs =>
              have hstep : dstep s .pull =
                  { s with buffer := vs, delivered := s.delivered ++ [v] } := by
                simp [dstep, pullStep, hc, hb]
              rw [hstep] at hcf ⊢
              rw [ih { s with buffer := vs, delivered := s.delivered ++ [v] }
                (fun h => absurd (hwb h) (by simp [hb])) hc hcf]
              simp [acceptedUpdates, hb]
      | cancel =>
          have hstep : (dstep s .cancel).cancelled = true := cancelDisplay_cancelled s
          rw [dfold_of_cancelled hstep] at hcf
          exact absurd hcf (by simp [hstep])

theorem dfold_delivered_prefix : ∀ (ops : List (DOp V)) (s : DState V),
    (s.waiting = true → s.buffer = []) → s.cancelled = false →
    ∃ t, (ops.foldl dstep s).delivered ++ t =
      s.delivered ++ s.buffer ++ acceptedUpdates ops := by
  intro ops
  induction ops with
  | nil =>
      intro s hwb hc
      exact ⟨s.buffer, by simp [acceptedUpdates]⟩
  | cons op rest ih =>
      intro s hwb hc
      rw [List.foldl_cons]
      cases op with
      | update v =>
          by_cases hw : s.waiting = true
          · have hstep : dstep s (.update v) =
                { s with delivered := s.delivered ++ [v], waiting := false } := by
              simp [dstep, updateDisplay, hc, hw]
            rw [hstep]
            obtain ⟨t, hteq⟩ := ih { s with delivered := s.delivered ++ [v], waiting := false }
              (fun h => by simp at h) hc
            refine ⟨t, ?_⟩
            rw [hteq]
            simp [acceptedUpdates, hwb hw]
          · have hstep : dstep s (.update v) = { s with buffer := s.buffer ++ [v] } := by
              simp [dstep, updateDisplay, hc, hw]
            rw [hstep]
            obtain ⟨t, hteq⟩ := ih { s with buffer := s.buffer ++ [v] }
              (fun h => absurd h hw) hc
            refine ⟨t, ?_⟩
            rw [hteq]
            simp [acceptedUpdates]
      | pull =>
          cases hb : s.buffer with
          | nil =>
              have hstep : dstep s .pull = { s with waiting := true } := by
                simp [dstep, pullStep, hc, hb]
              rw [hstep]
              obtain ⟨t, hteq⟩ := ih { s with waiting := true } (fun _ => hb) hc
              refine ⟨t, ?_⟩
              rw [hteq]
              simp [acceptedUpdates, hb]
          | cons v vs =>
              have hstep : dstep s .pull =
                  { s with buffer := vs, delivered := s.delivered ++ [v] } := by
                simp [dstep, pullStep, hc, hb]
              rw [hstep]
              obtain ⟨t, hteq⟩ := ih { s with buffer := vs, delivered := s.delivered ++ [v] }
                (fun h => absurd (hwb h) (by simp [hb])) hc
              refine ⟨t, ?_⟩
              rw [hteq]
              simp [acceptedUpdates, hb]
      | cancel =>
          have hstep : (dstep s .cancel).cancelled = true := cancelDisplay_cancelled s
          rw [dfold_of_cancelled hstep]
          have hdel : (dstep s .cancel).delivered = s.delivered := by
            simp [dstep, cancelDisplay, hc]
          refine ⟨s.buffer, ?_⟩
          rw [hdel]
          simp [acceptedUpdates]

/-- C7: for every trigger sequence on a display channel, the values the
generator yields are exactly the accepted update values in call order: while
the channel is not cancelled, delivered plus still-buffered values equal the
update sequence; delivered values always form a prefix of it; after a cancel
the whole channel state is frozen; and the concrete channel receiving updates
1, 2, 3 before any pull yields 1, then 2, then 3. -/
theorem claim_C7 (ops : List (DOp Nat)) :
    ((drun none ops).cancelled = false →
      (drun none ops).delivered ++ (drun none ops).buffer = acceptedUpdates ops) ∧
    (∃ t, (drun none ops).delivered ++ t = acceptedUpdates ops) ∧
    (∀ more : List (DOp Nat),
      drun none (ops ++ DOp.cancel :: more) = drun none (ops ++ [DOp.cancel])) ∧
    (drun (V := Nat) none
      [.update 1, .update 2, .update 3, .pull, .pull, .pull]).delivered = [1, 2, 3] := by
  refine ⟨?_, ?_, ?_, rfl⟩
  · intro hcf
    have h := dfold_order ops (displayInit none) (fun _ => rfl) rfl hcf
    simpa [displayInit, drun] using h
  · have h := dfold_delivered_prefix ops (displayInit none) (fun _ => rfl) rfl
    simpa [displayInit, drun] using h
  · intro more
    unfold drun
    rw [List.foldl_append, List.foldl_append, List.foldl_cons, List.foldl_cons,
      List.foldl_nil]
    exact dfold_of_cancelled (cancelDisplay_cancelled _) more

theorem claim_C7_witness :
    ((drun (V := Nat) none [.update 5, .pull]).cancelled = false ∧
     (drun (V := Nat) none [.update 5, .pull]).delivered ++
       (drun (V := Nat) none [.update 5, .pull]).buffer =
         acceptedUpdates [.update 5, .pull]) :=
  ⟨rfl, (claim_C7 [.update 5, .pull]).1 rfl⟩

theorem dfold_updates_only (us : List V) : ∀ (s : DState V),
    s.waiting = false → s.cancelled = false →
    (us.map DOp.update).foldl dstep s = { s with buffer := s.buffer ++ us } := by
  induction us with
  | nil =>
      intro s hw hc
      simp
  | cons u rest ih =>
      intro s hw hc
      rw [List.map_cons, List.foldl_cons]
      have hstep : dstep s (.update u) = { s with buffer := s.buffer ++ [u] } := by
        simp [dstep, updateDisplay, hc, hw]
      rw [hstep, ih { s with buffer := s.buffer ++ [u] } hw hc]
      simp

/-- C10: when display(options) carries a defined initialValue, the first value
the submitted sequence yields is that initial value, before any update value,
no matter how many updates were issued before the first pull; when
initialValue is absent the sequence starts with the first update value. -/
theorem claim_C10 (us : List Nat) (v0 : Nat) :
    (drun (some v0) (us.map DOp.update ++ [DOp.pull])).delivered = [v0] ∧
    (drun none (us.map DOp.update ++ [DOp.pull])).delivered = us.take 1 := by
  constructor
  · unfold drun
    rw [List.foldl_append, dfold_updates_only us (displayInit (some v0)) rfl rfl]
    simp [displayInit, pullStep, dstep]
  · unfold drun
    rw [List.foldl_append, dfold_updates_only us (displayInit none) rfl rfl]
    cases us with
    | nil => simp [displayInit, pullStep, dstep]
    | cons u rest => simp [displayInit, pullStep, dstep]

theorem claim_C5_witness :
    (let s : MState Nat :=
      { queue := [{ id := 1 }], currentPrompt := some { id := 0 }, nextId := 2 }
     s.currentPrompt = some { id := 0 } ∧
     (resolvePrompt 7 5 s = { s with warnCount := s.warnCount + 1 }) ∧
     ((resolvePrompt 0 5 s).currentPrompt = s.queue.head? ∧
      (resolvePrompt 0 5 s).queue = s.queue.tail ∧
      (resolvePrompt 0 5 s).settled = s.settled ++ [(0, some 5)] ∧
      Event.resolved 0 ∈ (resolvePrompt 0 5 s).events)) :=
  ⟨rfl, (claim_C5 7 5 _ _ rfl).1 (by decide), (claim_C5 0 5 _ _ rfl).2 rfl⟩

end ImperativePrompt

namespace PrioSched

theorem mem_enqueueByPriority (p x : PPrompt) (l : List PPrompt) :
    x ∈ enqueueByPriority p l ↔ x = p ∨ x ∈ l := by
  induction l with
  | nil => simp [enqueueByPriority]
  | cons q rest ih =>
      unfold enqueueByPriority
      by_cases hlt : prioInput q < prioInput p
      · simp [hlt]
      · simp [hlt, ih]
        tauto

theorem pairwise_enqueueByPriority {p : PPrompt} {l : List PPrompt}
    (h : l.Pairwise QRel) (hfresh : ∀ q ∈ l, q.id < p.id) :
    (enqueueByPriority p l).Pairwise QRel := by
  induction l with
  | nil => simp [enqueueByPriority, QRel]
  | cons q rest ih =>
      rw [List.pairwise_cons] at h
      obtain ⟨hq, hrest⟩ := h
      unfold enqueueByPriority
      by_cases hlt : prioInput q < prioInput p
      · simp only [hlt, if_true]
        rw [List.pairwise_cons]
        constructor
        · intro x hx
          rcases List.mem_cons.mp hx with rfl | hx
          · exact Or.inl hlt
          · rcases hq x hx with hlt2 | ⟨heq2, _⟩
            · exact Or.inl (lt_trans hlt2 hlt)
            · exact Or.inl (heq2 ▸ hlt)
        · rw [List.pairwise_cons]
          exact ⟨hq, hrest⟩
      · simp only [hlt, if_false]
        rw [List.pairwise_cons]
        constructor
        · intro x hx
          rcases (mem_enqueueByPriority p x rest).mp hx with rfl | hx
          · rcases lt_or_eq_of_le (not_lt.mp hlt) with hlt2 | heq2
            · exact Or.inl hlt2
            · exact Or.inr ⟨heq2.symm, hfresh q (List.mem_cons_self q rest)⟩
          · exact hq x hx
        · exact ih hrest (fun x hx => hfresh x (List.mem_cons_of_mem q hx))

theorem removeFirstPP_sublist (id : Nat) (l : List PPrompt) :
    (removeFirstPP id l).Sublist l := by
  induction l with
  | nil => exact List.Sublist.refl []
  | cons q rest ih =>
      unfold removeFirstPP
      by_cases hq : q.id = id
      · simp [hq]
      · simp [hq]
        exact ih

theorem pInv_pDrain {s : PState}
    (h1 : s.queue.Pairwise QRel) (h2 : ∀ p ∈ s.queue, p.id < s.nextId)
    (h3 : ∀ d, s.suspended = some d → s.slot = none ∨ ∃ p, s.slot = some (.input p)) :
    PInv (pDrain s) := by
  obtain ⟨pre, q, sl, su, n⟩ := s
  cases sl with
  | some x =>
      refine ⟨h1, h2, ?_, ?_⟩
      · intro d hd
        rcases h3 d hd with hnone | ⟨p, hp⟩
        · exact absurd hnone (by simp)
        · exact ⟨p, hp⟩
      · intro hsl
        exact absurd hsl (by simp [pDrain])
  | none =>
      cases q with
      | cons p rest =>
          rw [List.pairwise_cons] at h1
          refine ⟨h1.2, ?_, ?_, ?_⟩
          · intro x hx
            exact h2 x (List.mem_cons_of_mem p hx)
          · intro d _
            exact ⟨p, rfl⟩
          · intro hsl
            exact absurd hsl (by simp [pDrain])
      | nil =>
          cases su with
          | some d =>
              refine ⟨List.Pairwise.nil, ?_, ?_, ?_⟩
              · intro x hx
                simp [pDrain] at hx
              · intro d' hd'
                simp [pDrain] at hd'
              · intro hsl
                exact absurd hsl (by simp [pDrain])
          | none =>
              exact ⟨List.Pairwise.nil, fun x hx => by simp [pDrain] at hx,
                fun d hd => by simp [pDrain] at hd, fun _ => ⟨rfl, rfl⟩⟩

theorem pInv_pStep (op : POp) {s : PState} (h : PInv s) : PInv (pStep s op) := by
  obtain ⟨pre, q, sl, su, n⟩ := s
  obtain ⟨h1, h2, h3, h4⟩ := h
  cases op with
  | submit pr =>
      show PInv (pSubmit pr ⟨pre, q, sl, su, n⟩)
      cases sl with
      | none =>
          have heq : pSubmit pr ⟨pre, q, none, su, n⟩ =
              pDrain ⟨pre, enqueueByPriority ⟨n, pr⟩ q, none, su, n + 1⟩ := rfl
          rw [heq]
          refine pInv_pDrain ?_ ?_ ?_
          · exact pairwise_enqueueByPriority h1 (fun x hx => h2 x hx)
          · intro x hx
            rcases (mem_enqueueByPriority _ x q).mp hx with rfl | hx
            · exact Nat.lt_succ_self n
            · exact Nat.lt_succ_of_lt (h2 x hx)
          · intro d _
            exact Or.inl rfl
      | some slv =>
          cases slv with
          | input p0 =>
              have heq : pSubmit pr ⟨pre, q, some (.input p0), su, n⟩ =
                  pDrain ⟨pre, enqueueByPriority ⟨n, pr⟩ q, some (.input p0), su, n + 1⟩ := rfl
              rw [heq]
              refine pInv_pDrain ?_ ?_ ?_
              · exact pairwise_enqueueByPriority h1 (fun x hx => h2 x hx)
              · intro x hx
                rcases (mem_enqueueByPriority _ x q).mp hx with rfl | hx
                · exact Nat.lt_succ_self n
                · exact Nat.lt_succ_of_lt (h2 x hx)
              · intro d _
                exact Or.inr ⟨p0, rfl⟩
          | display d0 =>
              by_cases hcond : pre = true ∧ prioDisplay d0 < prioInput ⟨n, pr⟩
              · have heq : pSubmit pr ⟨pre, q, some (.display d0), su, n⟩ =
                    ⟨pre, q, some (.input ⟨n, pr⟩), some d0, n + 1⟩ := by
                  unfold pSubmit
                  simp [hcond]
                rw [heq]
                refine ⟨h1, ?_, ?_, ?_⟩
                · intro x hx
                  exact Nat.lt_succ_of_lt (h2 x hx)
                · intro d _
                  exact ⟨⟨n, pr⟩, rfl⟩
                · intro hsl
                  exact absurd hsl (by simp)
              · have heq : pSubmit pr ⟨pre, q, some (.display d0), su, n⟩ =
                    pDrain ⟨pre, enqueueByPriority ⟨n, pr⟩ q, some (.display d0), su, n + 1⟩ := by
                  unfold pSubmit
                  simp [hcond]
                rw [heq]
                refine pInv_pDrain ?_ ?_ ?_
                · exact pairwise_enqueueByPriority h1 (fun x hx => h2 x hx)
                · intro x hx
                  rcases (mem_enqueueByPriority _ x q).mp hx with rfl | hx
                  · exact Nat.lt_succ_self n
                  · exact Nat.lt_succ_of_lt (h2 x hx)
                · intro d hd
                  rcases h3 d hd with ⟨p, hp⟩
                  simp at hp
  | resolve id =>
      show PInv (pResolve id ⟨pre, q, sl, su, n⟩)
      cases sl with
      | none => exact ⟨h1, h2, h3, h4⟩
      | some slv =>
          cases slv with
          | display d0 => exact ⟨h1, h2, h3, h4⟩
          | input p0 =>
              by_cases hid : p0.id = id
              · have heq : pResolve id ⟨pre, q, some (.input p0), su, n⟩ =
                    pDrain ⟨pre, q, none, su, n⟩ := by
                  unfold pResolve
                  simp [hid]
                rw [heq]
                exact pInv_pDrain h1 h2 (fun d _ => Or.inl rfl)
              · have heq : pResolve id ⟨pre, q, some (.input p0), su, n⟩ =
                    ⟨pre, q, some (.input p0), su, n⟩ := by
                  unfold pResolve
                  simp [hid]
                rw [heq]
                exact ⟨h1, h2, h3, h4⟩
  | cancelInput id =>
      show PInv (pCancelInput id ⟨pre, q, sl, su, n⟩)
      cases sl with
      | none =>
          obtain ⟨hq0, hs0⟩ := h4 rfl
          subst hq0
          subst hs0
          have heq : pCancelInput id ⟨pre, [], none, none, n⟩ =
              ⟨pre, [], none, none, n⟩ := rfl
          rw [heq]
          exact ⟨h1, h2, h3, h4⟩
      | some slv =>
          cases slv with
          | display d0 =>
              have heq : pCancelInput id ⟨pre, q, some (.display d0), su, n⟩ =
                  ⟨pre, removeFirstPP id q, some (.display d0), su, n⟩ := rfl
              rw [heq]
              refine ⟨List.Pairwise.sublist (removeFirstPP_sublist id q) h1, ?_, ?_, ?_⟩
              · intro x hx
                exact h2 x ((removeFirstPP_sublist id q).subset hx)
              · intro d hd
                rcases h3 d hd with ⟨p, hp⟩
                simp at hp
              · intro hsl
                exact absurd hsl (by simp)
          | input p0 =>
              by_cases hid : p0.id = id
              · have heq : pCancelInput id ⟨pre, q, some (.input p0), su, n⟩ =
                    pDrain ⟨pre, q, none, su, n⟩ := by
                  unfold pCancelInput
                  simp [hid]
                rw [heq]
                exact pInv_pDrain h1 h2 (fun d _ => Or.inl rfl)
              · have heq : pCancelInput id ⟨pre, q, some (.input p0), su, n⟩ =
                    ⟨pre, removeFirstPP id q, some (.input p0), su, n⟩ := by
                  unfold pCancelInput
                  simp [hid]
                rw [heq]
                refine ⟨List.Pairwise.sublist (removeFirstPP_sublist id q) h1, ?_, ?_, ?_⟩
                · intro x hx
                  exact h2 x ((removeFirstPP_sublist id q).subset hx)
                · intro d _
                  exact ⟨p0, rfl⟩
                · intro hsl
                  exact absurd hsl (by simp)
  | startDisplay pr =>
      show PInv (pStartDisplay pr ⟨pre, q, sl, su, n⟩)
      cases sl with
      | none =>
          obtain ⟨hq0, hs0⟩ := h4 rfl
          subst hq0
          subst hs0
          have heq : pStartDisplay pr ⟨pre, [], none, none, n⟩ =
              ⟨pre, [], some (.display ⟨n, pr⟩), none, n + 1⟩ := rfl
          rw [heq]
          refine ⟨List.Pairwise.nil, ?_, ?_, ?_⟩
          · intro x hx
            simp at hx
          · intro d hd
            simp at hd
          · intro hsl
            exact absurd hsl (by simp)
      | some slv =>
          have heq : pStartDisplay pr ⟨pre, q, some slv, su, n⟩ =
              ⟨pre, q, some slv, su, n + 1⟩ := rfl
          rw [heq]
          refine ⟨h1, ?_, h3, ?_⟩
          · intro x hx
            exact Nat.lt_succ_of_lt (h2 x hx)
          · intro hsl
            exact absurd hsl (by simp)
  | cancelDisplay id =>
      show PInv (pCancelDisplay id ⟨pre, q, sl, su, n⟩)
      cases su with
      | some d =>
          obtain ⟨p1, hp1⟩ := h3 d rfl
          subst hp1
          by_cases hd : d.id = id
          · have heq : pCancelDisplay id ⟨pre, q, some (.input p1), some d, n⟩ =
                ⟨pre, q, some (.input p1), none, n⟩ := by
              unfold pCancelDisplay
              simp [hd]
            rw [heq]
            refine ⟨h1, h2, ?_, ?_⟩
            · intro d' hd'
              simp at hd'
            · intro hsl
              exact absurd hsl (by simp)
          · have heq : pCancelDisplay id ⟨pre, q, some (.input p1), some d, n⟩ =
                ⟨pre, q, some (.input p1), some d, n⟩ := by
              unfold pCancelDisplay
              simp [hd]
            rw [heq]
            exact ⟨h1, h2, h3, h4⟩
      | none =>
          cases sl with
          | none =>
              have heq : pCancelDisplay id ⟨pre, q, none, none, n⟩ =
                  ⟨pre, q, none, none, n⟩ := rfl
              rw [heq]
              exact ⟨h1, h2, h3, h4⟩
          | some slv =>
              cases slv with
              | input p0 =>
                  have heq : pCancelDisplay id ⟨pre, q, some (.input p0), none, n⟩ =
                      ⟨pre, q, some (.input p0), none, n⟩ := rfl
                  rw [heq]
                  exact ⟨h1, h2, h3, h4⟩
              | display d0 =>
                  by_cases hd0 : d0.id = id
                  · have heq : pCancelDisplay id ⟨pre, q, some (.display d0), none, n⟩ =
                        pDrain ⟨pre, q, none, none, n⟩ := by
                      unfold pCancelDisplay
                      simp [hd0]
                    rw [heq]
                    exact pInv_pDrain h1 h2 (fun d hd => by simp at hd)
                  · have heq : pCancelDisplay id ⟨pre, q, some (.display d0), none, n⟩ =
                        ⟨pre, q, some (.display d0), none, n⟩ := by
                      unfold pCancelDisplay
                      simp [hd0]
                    rw [heq]
                    exact ⟨h1, h2, h3, h4⟩
  | drain =>
      show PInv (pDrain ⟨pre, q, sl, su, n⟩)
      exact pInv_pDrain h1 h2 (fun d hd => Or.inr (h3 d hd))

theorem pInv_pRun (preempt : Bool) (ops : List POp) : PInv (pRun preempt ops) := by
  have hinit : PInv ({ preemptOn := preempt } : PState) :=
    ⟨List.Pairwise.nil, fun x hx => by simp at hx, fun d hd => by simp at hd,
      fun _ => ⟨rfl, rfl⟩⟩
  have hfold : ∀ (l : List POp) (s : PState), PInv s → PInv (l.foldl pStep s) := by
    intro l
    induction l with
    | nil => exact fun s hs => hs
    | cons op rest ih => exact fun s hs => ih (pStep s op) (pInv_pStep op hs)
  exact hfold ops _ hinit

theorem pResolve_active_next (s : PState) (c qh : PPrompt) (rest : List PPrompt)
    (hsl : s.slot = some (.input c)) (hq : s.queue = qh :: rest) :
    (pResolve c.id s).slot = some (.input qh) ∧ (pResolve c.id s).queue = rest ∧
    (pResolve c.id s).suspended = s.suspended := by
  obtain ⟨pre, q, sl, su, n⟩ := s
  simp only at hsl hq
  subst hsl
  subst hq
  have heq : pResolve c.id ⟨pre, qh :: rest, some (.input c), su, n⟩ =
      ⟨pre, rest, some (.input qh), su, n⟩ := by
    unfold pResolve
    simp [pDrain]
  rw [heq]
  exact ⟨rfl, rfl, rfl⟩

/-- C2: in the spec-modelled priority scheduler, at every reachable state the
pending Queue is ordered by strictly descending effective priority with equal
priorities kept in submission (id) order, so the head dominates every later
element; and when the Active Slot frees, the drain step promotes exactly that
head, removing it from the Queue. -/
theorem claim_C2 (preempt : Bool) (ops : List POp) :
    (pRun preempt ops).queue.Pairwise QRel ∧
    (∀ (c qh : PPrompt) (rest : List PPrompt),
      (pRun preempt ops).slot = some (.input c) →
      (pRun preempt ops).queue = qh :: rest →
      ((∀ x ∈ rest, QRel qh x) ∧
       (pResolve c.id (pRun preempt ops)).slot = some (.input qh) ∧
       (pResolve c.id (pRun preempt ops)).queue = rest)) := by
  obtain ⟨h1, h2, h3, h4⟩ := pInv_pRun preempt ops
  refine ⟨h1, fun c qh rest hsl hq => ?_⟩
  have hnext := pResolve_active_next (pRun preempt ops) c qh rest hsl hq
  refine ⟨?_, hnext.1, hnext.2.1⟩
  rw [hq] at h1
  exact (List.pairwise_cons.mp h1).1

theorem claim_C2_witness :
    (((pRun false [POp.submit (some 1), POp.submit (some 1), POp.submit (some 10)]).slot =
        some (.input ⟨0, some 1⟩)) ∧
     ((pRun false [POp.submit (some 1), POp.submit (some 1), POp.submit (some 10)]).queue =
        ⟨2, some 10⟩ :: [⟨1, some 1⟩])) ∧
    ((∀ x ∈ [(⟨1, some 1⟩ : PPrompt)], QRel ⟨2, some 10⟩ x) ∧
     (pResolve (PPrompt.mk 0 (some 1)).id
        (pRun false [POp.submit (some 1), POp.submit (some 1), POp.submit (some 10)])).slot =
       some (.input ⟨2, some 10⟩) ∧
     (pResolve (PPrompt.mk 0 (some 1)).id
        (pRun false [POp.submit (some 1), POp.submit (some 1), POp.submit (some 10)])).queue =
       [⟨1, some 1⟩]) :=
  ⟨⟨by decide, by decide⟩,
   (claim_C2 false [POp.submit (some 1), POp.submit (some 1), POp.submit (some 10)]).2
     ⟨0, some 1⟩ ⟨2, some 10⟩ [⟨1, some 1⟩] (by decide) (by decide)⟩

theorem pResolve_active_resume (s : PState) (c : PPrompt) (d : PDisplay)
    (hsl : s.slot = some (.input c)) (hq : s.queue = []) (hsu : s.suspended = some d) :
    (pResolve c.id s).slot = some (.display d) ∧ (pResolve c.id s).suspended = none := by
  obtain ⟨pre, q, sl, su, n⟩ := s
  simp only at hsl hq hsu
  subst hsl
  subst hq
  subst hsu
  have heq : pResolve c.id ⟨pre, [], some (.input c), some d, n⟩ =
      ⟨pre, [], some (.display d), none, n⟩ := by
    unfold pResolve
    simp [pDrain]
  rw [heq]
  exact ⟨rfl, rfl⟩

/-- C4: in the spec-modelled preemptive scheduler, starting a Display Channel
at priority 0 and then submitting an interactive Request at priority 10
suspends the display and presents the input; at every reachable state a
suspended display implies an interactive Request occupies the Active Slot;
resolving the active Request while further interactive Requests are queued
promotes the next one and keeps the display suspended; and resolving it with
an empty Queue resumes the suspended display exactly then. -/
theorem claim_C4 :
    ((pRun true [POp.startDisplay (some 0), POp.submit (some 10)]).slot =
        some (.input ⟨1, some 10⟩) ∧
     (pRun true [POp.startDisplay (some 0), POp.submit (some 10)]).suspended =
        some ⟨0, some 0⟩ ∧
     (pResolve 1 (pRun true [POp.startDisplay (some 0), POp.submit (some 10)])).slot =
        some (.display ⟨0, some 0⟩) ∧
     (pResolve 1 (pRun true [POp.startDisplay (some 0), POp.submit (some 10)])).suspended =
        none) ∧
    (∀ (ops : List POp) (d : PDisplay),
      (pRun true ops).suspended = some d → ∃ p, (pRun true ops).slot = some (.input p)) ∧
    (∀ (s : PState) (c : PPrompt) (d : PDisplay),
      s.slot = some (.input c) → s.queue = [] → s.suspended = some d →
      (pResolve c.id s).slot = some (.display d) ∧ (pResolve c.id s).suspended = none) ∧
    (∀ (s : PState) (c qh : PPrompt) (rest : List PPrompt) (d : PDisplay),
      s.slot = some (.input c) → s.queue = qh :: rest → s.suspended = some d →
      (pResolve c.id s).slot = some (.input qh) ∧ (pResolve c.id s).suspended = some d) := by
  refine ⟨⟨by decide, by decide, by decide, by decide⟩, ?_, ?_, ?_⟩
  · intro ops d hd
    exact (pInv_pRun true ops).2.2.1 d hd
  · intro s c d hsl hq hsu
    exact pResolve_active_resume s c d hsl hq hsu
  · intro s c qh rest d hsl hq hsu
    have h := pResolve_active_next s c qh rest hsl hq
    exact ⟨h.1, by rw [h.2.2, hsu]⟩

theorem claim_C4_witness :
    ((pRun true [POp.startDisplay (some 0), POp.submit (some 10)]).suspended =
        some ⟨0, some 0⟩ ∧
     (∃ p, (pRun true [POp.startDisplay (some 0), POp.submit (some 10)]).slot =
        some (.input p))) ∧
    ((PState.mk true [] (some (.input ⟨1, some 10⟩)) (some ⟨0, some 0⟩) 2).slot =
        some (.input ⟨1, some 10⟩) ∧
     ((pResolve (PPrompt.mk 1 (some 10)).id
        (PState.mk true [] (some (.input ⟨1, some 10⟩)) (some ⟨0, some 0⟩) 2)).slot =
          some (.display ⟨0, some 0⟩) ∧
      (pResolve (PPrompt.mk 1 (some 10)).id
        (PState.mk true [] (some (.input ⟨1, some 10⟩)) (some ⟨0, some 0⟩) 2)).suspended =
          none)) :=
  ⟨⟨by decide,
    claim_C4.2.1 [POp.startDisplay (some 0), POp.submit (some 10)] ⟨0, some 0⟩ (by decide)⟩,
   ⟨rfl,
    claim_C4.2.2.1 (PState.mk true [] (some (.input ⟨1, some 10⟩)) (some ⟨0, some 0⟩) 2)
      ⟨1, some 10⟩ ⟨0, some 0⟩ rfl rfl rfl⟩⟩

end PrioSched
